import Mathlib

/-!
Verification of the metadata synchronization model of the PNG metadata
editor (files `utils.py` and `metadata.py`).

Python strings are modelled as Lean `String`s; where the source uses
`str.split('\n')` or `str.strip()` we model those operations explicitly
over the underlying character list, so that every step is a plain
structural recursion.
-/

/-- Model of Python's `text.split('\n')`, auxiliary form: returns the first
segment (up to the first newline) paired with the remaining segments. -/
def splitNlAux : List Char → List Char × List (List Char)
  | [] => ([], [])
  | c :: cs =>
      let r := splitNlAux cs
      if c = '\n' then ([], r.1 :: r.2) else (c :: r.1, r.2)

/-- Model of Python's `text.split('\n')`: always returns at least one
segment, exactly like the Python method. -/
def splitNl (cs : List Char) : List (List Char) :=
  (splitNlAux cs).1 :: (splitNlAux cs).2

/-- Model of Python's `'\n'.join(lines)`. -/
def joinNl : List (List Char) → List Char
  | [] => []
  | [l] => l
  | l :: l' :: ls => l ++ '\n' :: joinNl (l' :: ls)

/-- `limit_text_lines` from `utils.py`: split the text on newlines; when
there are more than `maxLines` lines, keep the first `maxLines` lines and
append the `"\n[...]"` marker, otherwise return the text unchanged. -/
def limit_text_lines (text : String) (maxLines : Nat) : String :=
  if maxLines < (splitNl text.data).length then
    String.mk (joinNl ((splitNl text.data).take maxLines) ++ '\n' :: "[...]".data)
  else text

theorem splitNlAux_no_nl (cs : List Char) :
    '\n' ∉ (splitNlAux cs).1 ∧ ∀ l ∈ (splitNlAux cs).2, '\n' ∉ l := by
  induction cs with
  | nil => exact ⟨List.not_mem_nil _, by intro l hl; cases hl⟩
  | cons c cs ih =>
      by_cases hc : c = '\n'
      · simp only [splitNlAux, hc, if_pos rfl]
        refine ⟨List.not_mem_nil _, ?_⟩
        intro l hl
        rcases List.mem_cons.mp hl with h | h
        · exact h ▸ ih.1
        · exact ih.2 l h
      · simp only [splitNlAux, if_neg hc]
        refine ⟨?_, ih.2⟩
        intro hmem
        rcases List.mem_cons.mp hmem with h | h
        · exact hc h.symm
        · exact ih.1 h

theorem splitNl_no_nl (cs : List Char) : ∀ l ∈ splitNl cs, '\n' ∉ l := by
  intro l hl
  rcases List.mem_cons.mp hl with h | h
  · exact h ▸ (splitNlAux_no_nl cs).1
  · exact (splitNlAux_no_nl cs).2 l h

theorem splitNlAux_append_nl (a b : List Char) (ha : '\n' ∉ a) :
    splitNlAux (a ++ '\n' :: b) = (a, splitNl b) := by
  induction a with
  | nil => simp [splitNlAux, splitNl]
  | cons c a ih =>
      have hc : c ≠ '\n' := fun h => ha (h ▸ List.mem_cons_self c a)
      have ha' : '\n' ∉ a := fun h => ha (List.mem_cons_of_mem c h)
      simp only [List.cons_append, splitNlAux, List.append_eq, ih ha', if_neg hc]

theorem splitNl_append_nl (a b : List Char) (ha : '\n' ∉ a) :
    splitNl (a ++ '\n' :: b) = a :: splitNl b := by
  unfold splitNl
  rw [splitNlAux_append_nl a b ha]
  rfl

theorem splitNlAux_of_no_nl (a : List Char) (ha : '\n' ∉ a) :
    splitNlAux a = (a, []) := by
  induction a with
  | nil => rfl
  | cons c a ih =>
      have hc : c ≠ '\n' := fun h => ha (h ▸ List.mem_cons_self c a)
      have ha' : '\n' ∉ a := fun h => ha (List.mem_cons_of_mem c h)
      simp only [splitNlAux, ih ha', if_neg hc]

theorem splitNl_joinNl_append (L : List (List Char)) (b : List Char)
    (hne : L ≠ []) (hnl : ∀ l ∈ L, '\n' ∉ l) :
    splitNl (joinNl L ++ '\n' :: b) = L ++ splitNl b := by
  induction L with
  | nil => exact absurd rfl hne
  | cons x t ih =>
      cases t with
      | nil =>
          have hx : '\n' ∉ x := hnl x (List.mem_cons_self x [])
          show splitNl (x ++ '\n' :: b) = [x] ++ splitNl b
          rw [splitNl_append_nl x b hx]
          rfl
      | cons y t' =>
          have hx : '\n' ∉ x := hnl x (List.mem_cons_self x (y :: t'))
          have hrest : ∀ l ∈ y :: t', '\n' ∉ l := by
            intro l hl; exact hnl l (List.mem_cons_of_mem x hl)
          have hne' : (y :: t') ≠ [] := by simp
          have step : joinNl (x :: y :: t') ++ '\n' :: b
              = x ++ '\n' :: (joinNl (y :: t') ++ '\n' :: b) := by
            simp [joinNl, List.append_assoc]
          rw [step, splitNl_append_nl x _ hx, ih hne' hrest]
          rfl

theorem marker_no_nl : '\n' ∉ "[...]".data := by decide

theorem limit_of_lt (s : String) (h : 12 < (splitNl s.data).length) :
    limit_text_lines s 12
      = String.mk (joinNl ((splitNl s.data).take 12) ++ '\n' :: "[...]".data) := by
  unfold limit_text_lines
  rw [if_pos h]

theorem limit_of_not_lt (s : String) (h : ¬ 12 < (splitNl s.data).length) :
    limit_text_lines s 12 = s := by
  unfold limit_text_lines
  rw [if_neg h]

/-- C1: The truncation function is idempotent: applying `limit_text_lines`
(with the 12-line cap used throughout the source) twice gives the same
result as applying it once; re-truncating text already truncated with the
`"\n[...]"` marker does not change it again. -/
theorem truncation_idempotent (s : String) :
    limit_text_lines (limit_text_lines s 12) 12 = limit_text_lines s 12 := by
  by_cases h : 12 < (splitNl s.data).length
  · have hLlen : ((splitNl s.data).take 12).length = 12 := by
      rw [List.length_take]
      exact Nat.min_eq_left (Nat.le_of_lt h)
    have hLne : (splitNl s.data).take 12 ≠ [] := by
      intro hnil
      rw [hnil] at hLlen
      exact absurd hLlen.symm (by decide)
    have hLnl : ∀ l ∈ (splitNl s.data).take 12, '\n' ∉ l := by
      intro l hl
      exact splitNl_no_nl s.data l (List.take_subset 12 _ hl)
    have hsplit : splitNl (limit_text_lines s 12).data
        = (splitNl s.data).take 12 ++ ["[...]".data] := by
      rw [limit_of_lt s h]
      show splitNl (joinNl ((splitNl s.data).take 12) ++ '\n' :: "[...]".data) = _
      rw [splitNl_joinNl_append _ _ hLne hLnl]
      unfold splitNl
      rw [splitNlAux_of_no_nl "[...]".data marker_no_nl]
    have hlen13 : (splitNl (limit_text_lines s 12).data).length = 13 := by
      rw [hsplit, List.length_append, hLlen]
      rfl
    have hcond : 12 < (splitNl (limit_text_lines s 12).data).length := by
      rw [hlen13]
      exact Nat.lt_succ_self 12
    have htake : (splitNl (limit_text_lines s 12).data).take 12
        = (splitNl s.data).take 12 := by
      rw [hsplit, List.take_append_of_le_length (Nat.le_of_eq hLlen.symm),
        List.take_of_length_le (Nat.le_of_eq hLlen)]
    rw [limit_of_lt (limit_text_lines s 12) hcond, htake, limit_of_lt s h]
  · rw [limit_of_not_lt s h, limit_of_not_lt s h]

/-- Model of Python's `str.strip()` whitespace test, restricted to the
ASCII whitespace characters (the only ones the source's inputs use). -/
def isPySpace (c : Char) : Bool :=
  c = ' ' || c = '\t' || c = '\n' || c = '\r' || c = '\x0b' || c = '\x0c'

/-- Model of Python's `str.strip()`: drop whitespace from both ends. -/
def pyStrip (s : String) : String :=
  String.mk (((s.data.dropWhile isPySpace).reverse.dropWhile isPySpace).reverse)

/-- Model of the decoded metadata values found in PIL's `info` dict,
restricted to the shapes PNG text metadata takes in this program: plain
strings, integers, sequences of strings, and string-valued mappings
(nested containers do not occur). -/
inductive PyValue where
  | vstr (s : String)
  | vint (n : Int)
  | vlist (xs : List String)
  | vdict (kvs : List (String × String))
deriving DecidableEq

/-- Python's `repr` of a plain string without quotes or escapes in it:
surround with single quotes (written via the `\x27` escape). -/
def pyQuote (s : String) : String := "\x27" ++ s ++ "\x27"

/-- Model of Python's `str(value)` on the restricted value domain:
strings render as themselves, integers in decimal, lists as
`[<repr of elements>]`, dicts as `\x7b<repr k>: <repr v>, ...\x7d`. -/
def pyStr : PyValue → String
  | .vstr s => s
  | .vint n => toString n
  | .vlist xs => "[" ++ String.intercalate ", " (xs.map pyQuote) ++ "]"
  | .vdict kvs =>
      "\x7b" ++ String.intercalate ", "
        (kvs.map (fun kv => pyQuote kv.1 ++ ": " ++ pyQuote kv.2)) ++ "\x7d"

/-- Model of `json.dumps(value, indent=2)` for a string-valued dict, as
called in `load_metadata`. -/
def jsonDumpsIndent2 : List (String × String) → String
  | [] => "\x7b\x7d"
  | kvs =>
      "\x7b\n" ++ String.intercalate ",\n"
        (kvs.map (fun kv => "  \"" ++ kv.1 ++ "\": \"" ++ kv.2 ++ "\"")) ++ "\n\x7d"

/-- The `display_value` computation in `load_metadata` (`metadata.py`):
sequences are joined with `", "`, dicts rendered via `json.dumps(...,
indent=2)`, everything else via `str(value)`. -/
def renderValue : PyValue → String
  | .vlist xs => String.intercalate ", " xs
  | .vdict kvs => jsonDumpsIndent2 kvs
  | v => pyStr v

/-- Model of a decoded PIL image: the fields `load_metadata` reads. -/
structure PngImage where
  width : Nat
  height : Nat
  mode : String
  format : Option String
  info : List (String × PyValue)
deriving DecidableEq

/-- One row of `self.metadata_entries` (`metadata.py`): the per-entry dict
with keys `key`, `value` (the displayed, possibly truncated text),
`editable`, and `full_value`. -/
structure Entry where
  key : String
  value : String
  editable : Bool
  full_value : String
deriving DecidableEq

/-- The mutable state of `MetadataHandler` relevant to the metadata
synchronization model: `current_file`, `current_image`, the ordered entry
collection (the Python dict iterates in insertion order, so a list), and
the `is_modified` flag.  Widget handles (`qt_item_map`) carry no further
state and are omitted; entries are addressed by their list position. -/
structure Store where
  current_file : Option String
  current_image : Option PngImage
  metadata_entries : List Entry
  is_modified : Bool
deriving DecidableEq

/-- The `__init__` state of `MetadataHandler`. -/
def emptyStore : Store :=
  { current_file := none, current_image := none,
    metadata_entries := [], is_modified := false }

/-- Errors and user-facing notifications the handler can raise.  In the
source these are message boxes; the kind of box and its text distinguish
them. -/
inductive MetaError where
  | NotEditableError
  | ValidationError
  | NoFileWarning
  | SaveError
  | LoadError
deriving DecidableEq

/-- Model of the Python idiom `self.current_image.format or 'PNG'`:
`None` and the empty string are falsy. -/
def pyOrDefault (s : Option String) (d : String) : String :=
  match s with
  | none => d
  | some t => if t = "" then d else t

/-- The `basic_info` dict built in `load_metadata`. -/
def basicInfo (img : PngImage) : List (String × String) :=
  [("Image Width", toString img.width),
   ("Image Height", toString img.height),
   ("Image Mode", img.mode),
   ("Image Format", pyOrDefault img.format "PNG")]

/-- A basic-info row as created in the first loop of `load_metadata`:
non-editable, `full_value` equal to the displayed value. -/
def mkBasicEntry (kv : String × String) : Entry :=
  { key := kv.1, value := kv.2, editable := false, full_value := kv.2 }

/-- A text-metadata row as created in the second loop of `load_metadata`:
displayed value is the rendering truncated to 12 lines, `full_value` is
`str(value)` on the raw decoded value. -/
def mkInfoEntry (kv : String × PyValue) : Entry :=
  { key := kv.1, value := limit_text_lines (renderValue kv.2) 12,
    editable := true, full_value := pyStr kv.2 }

/-- The placeholder row `('No PNG metadata', 'found in this file')`. -/
def placeholderEntry : Entry :=
  { key := "No PNG metadata", value := "found in this file",
    editable := false, full_value := "found in this file" }

/-- `load_metadata` (`metadata.py`): basic-info rows, then one row per
text-metadata pair; the placeholder row is appended only when both
`png_info` and `basic_info` are empty (`if not png_info and not
basic_info`). -/
def load_metadata_entries (img : PngImage) : List Entry :=
  if img.info.isEmpty && (basicInfo img).isEmpty then
    (basicInfo img).map mkBasicEntry ++ img.info.map mkInfoEntry ++ [placeholderEntry]
  else
    (basicInfo img).map mkBasicEntry ++ img.info.map mkInfoEntry

/-- `load_png_file` (`metadata.py`).  The source assigns `current_file`
first, then calls `Image.open` (modelled by `decoded`; `none` means the
decoder raised) and `current_image.load()` (modelled by `loadOk`; `false`
means it raised).  Only after both succeed are the old entries cleared and
the new ones loaded, and `is_modified` reset. -/
def load_png_file (st : Store) (file_path : String) (decoded : Option PngImage)
    (loadOk : Bool) : Store × Option MetaError :=
  match decoded with
  | none => ({ st with current_file := some file_path }, some MetaError.LoadError)
  | some img =>
      if loadOk = false then
        ({ st with current_file := some file_path, current_image := some img },
         some MetaError.LoadError)
      else
        ({ current_file := some file_path, current_image := some img,
           metadata_entries := load_metadata_entries img, is_modified := false },
         none)

/-- Replace the entry at a position, leaving the rest alone (the in-place
dict update in `save_edit_dialog_changes`). -/
def updateAt : List Entry → Nat → (Entry → Entry) → List Entry
  | [], _, _ => []
  | e :: es, 0, f => f e :: es
  | e :: es, i + 1, f => e :: updateAt es i f

/-- `save_edit_dialog_changes` (`metadata.py`): strip both texts, reject an
empty key, otherwise overwrite the entry's key, displayed value (truncated
to 12 lines) and `full_value`, and set `is_modified`. -/
def save_edit_dialog_changes (st : Store) (i : Nat) (keyText valueText : String) :
    Store × Option MetaError :=
  if pyStrip keyText = "" then (st, some MetaError.ValidationError)
  else
    ({ st with
        metadata_entries := updateAt st.metadata_entries i (fun e =>
          { e with key := pyStrip keyText,
                   value := limit_text_lines (pyStrip valueText) 12,
                   full_value := pyStrip valueText }),
        is_modified := true }, none)

/-- `edit_metadata_item` followed by the edit dialog (`metadata.py`):
an unknown item is a silent no-op, a non-editable entry is refused, and
otherwise the submitted texts go through `save_edit_dialog_changes`. -/
def edit_metadata_item (st : Store) (i : Nat) (keyText valueText : String) :
    Store × Option MetaError :=
  match st.metadata_entries[i]? with
  | none => (st, none)
  | some e =>
      if !e.editable then (st, some MetaError.NotEditableError)
      else save_edit_dialog_changes st i keyText valueText

/-- `add_field_dialog_changes` (`metadata.py`): strip both texts, reject an
empty key, otherwise append a new editable entry and set `is_modified`. -/
def add_field_dialog_changes (st : Store) (keyText valueText : String) :
    Store × Option MetaError :=
  if pyStrip keyText = "" then (st, some MetaError.ValidationError)
  else
    ({ st with
        metadata_entries := st.metadata_entries ++
          [{ key := pyStrip keyText,
             value := limit_text_lines (pyStrip valueText) 12,
             editable := true,
             full_value := pyStrip valueText }],
        is_modified := true }, none)

/-- `add_metadata_field` (`metadata.py`): refuse when no image is loaded,
otherwise run the add dialog. -/
def add_metadata_field (st : Store) (keyText valueText : String) :
    Store × Option MetaError :=
  match st.current_image with
  | none => (st, some MetaError.NoFileWarning)
  | some _ => add_field_dialog_changes st keyText valueText

/-- `remove_metadata_field` (`metadata.py`): an unknown selection is a
no-op, a non-editable entry is refused, and otherwise the entry is deleted
only when the user confirms. -/
def remove_metadata_field (st : Store) (i : Nat) (confirm : Bool) :
    Store × Option MetaError :=
  match st.metadata_entries[i]? with
  | none => (st, none)
  | some e =>
      if !e.editable then (st, some MetaError.NotEditableError)
      else if confirm then
        ({ st with metadata_entries := st.metadata_entries.eraseIdx i,
                   is_modified := true }, none)
      else (st, none)

/-- The reserved basic-info names excluded in `save_metadata_to_file`. -/
def reserved_keys : List String :=
  ["Image Width", "Image Height", "Image Mode", "Image Format"]

/-- The per-entry persistence filter in `save_metadata_to_file`:
`entry_data['editable'] and entry_data['key'] and
entry_data.get('full_value')` and the reserved-name exclusion. -/
def persistable (e : Entry) : Bool :=
  e.editable && decide (e.key ≠ "") && decide (e.full_value ≠ "")
    && decide (e.key ∉ reserved_keys)

/-- The sequence of `png_info.add_text(key, full_value)` calls issued by
`save_metadata_to_file`, i.e. the written text chunks in entry order. -/
def buildPngInfo (entries : List Entry) : List (String × String) :=
  (entries.filter persistable).map (fun e => (e.key, e.full_value))

/-- Python dict assignment `info[k] = v` on an insertion-ordered
association list: replace in place when the key exists, append
otherwise. -/
def assocUpsert : List (String × String) → String → String → List (String × String)
  | [], k, v => [(k, v)]
  | c :: cs, k, v => if c.1 = k then (k, v) :: cs else c :: assocUpsert cs k v

/-- Lookup in an association list (Python `info.get(k)`). -/
def lookupKey : List (String × String) → String → Option String
  | [], _ => none
  | c :: cs, k => if c.1 = k then some c.2 else lookupKey cs k

/-- The metadata map a decoder observes after reading back the written
chunks: PIL assigns `info[key] = value` chunk by chunk in file order, so a
later chunk with the same key overwrites an earlier one. -/
def persistedMap (chunks : List (String × String)) : List (String × String) :=
  chunks.foldl (fun m kv => assocUpsert m kv.1 kv.2) []

/-- `save_metadata_to_file` (`metadata.py`): build the chunks, write the
file (`writeOk = false` models a raising `temp_image.save`, which leaves
the state untouched); on success to the currently loaded path, clear
`is_modified` and re-open the saved file (whose text metadata is now the
persisted map). -/
def save_metadata_to_file (st : Store) (file_path : String) (writeOk : Bool) :
    Store × Option MetaError :=
  if writeOk = false then (st, some MetaError.SaveError)
  else if st.current_file = some file_path then
    ({ st with
       is_modified := false,
       current_image := st.current_image.map (fun img =>
         { img with
           info := (persistedMap (buildPngInfo st.metadata_entries)).map
                     (fun kv => (kv.1, PyValue.vstr kv.2)) }) }, none)
  else (st, none)

/-- A small decoded image used as a concrete test fixture: 2x3 RGB PNG
with one text chunk `Author: x`. -/
def img0 : PngImage :=
  { width := 2, height := 3, mode := "RGB", format := some "PNG",
    info := [("Author", PyValue.vstr "x")] }

/-- The store right after successfully loading `img0` from `a.png`. -/
def ST0 : Store := (load_png_file emptyStore "a.png" (some img0) true).1

/-- C9 (amended): a failed load leaves the previous entry list, the image
handle and the modified flag unchanged, but the current-file path is set
to the attempted path before the decoder runs; if the failure happens in
`current_image.load()` (after `Image.open` succeeded) the image handle has
additionally been replaced. -/
theorem failed_load_state (st : Store) (path : String) (img : PngImage) (b : Bool) :
    load_png_file st path none b
      = ({ st with current_file := some path }, some MetaError.LoadError) ∧
    load_png_file st path (some img) false
      = ({ st with current_file := some path, current_image := some img },
         some MetaError.LoadError) :=
  ⟨rfl, rfl⟩

/-- C9 (counterexample): with `a.png` loaded, a load of `b.png` whose
decode fails changes `current_file` from `a.png` to `b.png`, so the store
is not left in its pre-load state. -/
theorem failed_load_counterexample :
    ST0.current_file = some "a.png" ∧
    ((load_png_file ST0 "b.png" none true).1).current_file = some "b.png" ∧
    some "b.png" ≠ some "a.png" := by decide

/-- C5: `is_modified` is `false` after a successful load; `true` after a
successful edit, add, or remove; `false` after a successful save to the
currently loaded path; and a failed save returns the state unchanged (so
the flag stays `true`). -/
theorem dirty_flag_transitions :
    (∀ st path img, ((load_png_file st path (some img) true).1).is_modified = false) ∧
    (∀ st i e k v, st.metadata_entries[i]? = some e → e.editable = true →
      pyStrip k ≠ "" → ((edit_metadata_item st i k v).1).is_modified = true) ∧
    (∀ st img k v, st.current_image = some img → pyStrip k ≠ "" →
      ((add_metadata_field st k v).1).is_modified = true) ∧
    (∀ st i e, st.metadata_entries[i]? = some e → e.editable = true →
      ((remove_metadata_field st i true).1).is_modified = true) ∧
    (∀ st path, st.current_file = some path →
      ((save_metadata_to_file st path true).1).is_modified = false) ∧
    (∀ st path, save_metadata_to_file st path false = (st, some MetaError.SaveError)) := by
  refine ⟨?_, ?_, ?_, ?_, ?_, ?_⟩
  · intro st path img
    rfl
  · intro st i e k v hget hed hk
    simp [edit_metadata_item, hget, hed, save_edit_dialog_changes, hk]
  · intro st img k v himg hk
    simp [add_metadata_field, himg, add_field_dialog_changes, hk]
  · intro st i e hget hed
    simp [remove_metadata_field, hget, hed]
  · intro st path hfile
    simp [save_metadata_to_file, hfile]
  · intro st path
    rfl

theorem dirty_flag_transitions_witness :
    ((edit_metadata_item ST0 4 "k" "v").1).is_modified = true ∧
    ((add_metadata_field ST0 "k" "v").1).is_modified = true ∧
    ((remove_metadata_field ST0 4 true).1).is_modified = true ∧
    ((save_metadata_to_file ST0 "a.png" true).1).is_modified = false := by
  have h := dirty_flag_transitions
  refine ⟨?_, ?_, ?_, ?_⟩
  · exact h.2.1 ST0 4
      { key := "Author", value := "x", editable := true, full_value := "x" }
      "k" "v" (by decide) (by decide) (by decide)
  · exact h.2.2.1 ST0 img0 "k" "v" (by decide) (by decide)
  · exact h.2.2.2.1 ST0 4
      { key := "Author", value := "x", editable := true, full_value := "x" }
      (by decide) (by decide)
  · exact h.2.2.2.2.1 ST0 "a.png" (by decide)

/-- C7: an edit or add whose key is empty after stripping fails with a
validation error and returns the store exactly as it was: no entry
changed, nothing appended, `is_modified` untouched. -/
theorem empty_key_rejected (st : Store) (i : Nat) (k v : String)
    (hk : pyStrip k = "") :
    save_edit_dialog_changes st i k v = (st, some MetaError.ValidationError) ∧
    add_field_dialog_changes st k v = (st, some MetaError.ValidationError) := by
  constructor
  · unfold save_edit_dialog_changes
    rw [if_pos hk]
  · unfold add_field_dialog_changes
    rw [if_pos hk]

theorem empty_key_rejected_witness :
    save_edit_dialog_changes ST0 4 " " "anything" = (ST0, some MetaError.ValidationError) ∧
    add_field_dialog_changes ST0 " " "anything" = (ST0, some MetaError.ValidationError) :=
  empty_key_rejected ST0 4 " " "anything" (by decide)

theorem load_basic_get (img : PngImage) (i : Nat) (hi : i < 4) :
    ∃ kv, (load_metadata_entries img)[i]? = some (mkBasicEntry kv) := by
  have hcond : (img.info.isEmpty && (basicInfo img).isEmpty) = false := by
    simp [basicInfo]
  unfold load_metadata_entries
  rw [hcond]
  simp only [Bool.false_eq_true, if_false]
  have hlen : ((basicInfo img).map mkBasicEntry).length = 4 := by
    simp [basicInfo]
  rw [List.getElem?_append_left (by rw [hlen]; exact hi), List.getElem?_map]
  interval_cases i
  · exact ⟨_, rfl⟩
  · exact ⟨_, rfl⟩
  · exact ⟨_, rfl⟩
  · exact ⟨_, rfl⟩

/-- C6: on a freshly loaded store, an edit or a remove aimed at any of the
four basic-info rows (positions 0-3) is refused with the not-editable
error and the store is returned unchanged, whatever the submitted texts or
the confirmation flag. -/
theorem basic_info_immutable (st0 : Store) (path : String) (img : PngImage)
    (i : Nat) (k v : String) (confirm : Bool) (hi : i < 4) :
    edit_metadata_item ((load_png_file st0 path (some img) true).1) i k v
      = ((load_png_file st0 path (some img) true).1, some MetaError.NotEditableError) ∧
    remove_metadata_field ((load_png_file st0 path (some img) true).1) i confirm
      = ((load_png_file st0 path (some img) true).1, some MetaError.NotEditableError) := by
  obtain ⟨kv, hget⟩ := load_basic_get img i hi
  have hstL : (load_png_file st0 path (some img) true).1
      = { current_file := some path, current_image := some img,
          metadata_entries := load_metadata_entries img, is_modified := false } := rfl
  rw [hstL]
  constructor
  · simp [edit_metadata_item, hget, mkBasicEntry]
  · simp [remove_metadata_field, hget, mkBasicEntry]

theorem basic_info_immutable_witness :
    edit_metadata_item ST0 0 "anything" "anything"
      = (ST0, some MetaError.NotEditableError) ∧
    remove_metadata_field ST0 0 true
      = (ST0, some MetaError.NotEditableError) :=
  basic_info_immutable emptyStore "a.png" img0 0 "anything" "anything" true (by decide)

theorem updateAt_getElem (l : List Entry) (i : Nat) (f : Entry → Entry) (e : Entry)
    (h : l[i]? = some e) : (updateAt l i f)[i]? = some (f e) := by
  induction l generalizing i with
  | nil => simp at h
  | cons x xs ih =>
      cases i with
      | zero =>
          simp only [List.getElem?_cons_zero, Option.some.injEq] at h
          simp [updateAt, h]
      | succ j =>
          simp only [List.getElem?_cons_succ] at h
          simp [updateAt, ih j h]

theorem buildPngInfo_append (a b : List Entry) :
    buildPngInfo (a ++ b) = buildPngInfo a ++ buildPngInfo b := by
  simp [buildPngInfo, List.filter_append]

theorem buildPngInfo_cons_of_neg (e : Entry) (l : List Entry)
    (h : persistable e = false) : buildPngInfo (e :: l) = buildPngInfo l := by
  simp [buildPngInfo, List.filter_cons, h]

theorem buildPngInfo_cons_of_pos (e : Entry) (l : List Entry)
    (h : persistable e = true) :
    buildPngInfo (e :: l) = (e.key, e.full_value) :: buildPngInfo l := by
  simp [buildPngInfo, List.filter_cons, h]

/-- C10: an edit whose stripped key is non-empty succeeds regardless of
the value; the entry's `full_value` becomes the stripped value (the empty
string when the value strips to nothing), and an entry with empty
`full_value` contributes no chunk on a subsequent save. -/
theorem edit_empty_value_ok (st : Store) (i : Nat) (e : Entry) (k v : String)
    (hget : st.metadata_entries[i]? = some e) (hed : e.editable = true)
    (hk : pyStrip k ≠ "") :
    (edit_metadata_item st i k v).2 = none ∧
    ((edit_metadata_item st i k v).1).metadata_entries[i]?
      = some { e with key := pyStrip k,
                      value := limit_text_lines (pyStrip v) 12,
                      full_value := pyStrip v } ∧
    (pyStrip v = "" → ∀ l1 l2 : List Entry,
      buildPngInfo (l1 ++ ({ e with
          key := pyStrip k,
          value := limit_text_lines (pyStrip v) 12,
          full_value := pyStrip v } :: l2))
        = buildPngInfo (l1 ++ l2)) := by
  have hedit : edit_metadata_item st i k v
      = ({ st with
           metadata_entries := updateAt st.metadata_entries i (fun e' =>
             { e' with key := pyStrip k,
                       value := limit_text_lines (pyStrip v) 12,
                       full_value := pyStrip v }),
           is_modified := true }, none) := by
    simp [edit_metadata_item, hget, hed, save_edit_dialog_changes, hk]
  refine ⟨by rw [hedit], ?_, ?_⟩
  · rw [hedit]
    exact updateAt_getElem st.metadata_entries i _ e hget
  · intro hv l1 l2
    have hnp : persistable { e with
        key := pyStrip k,
        value := limit_text_lines (pyStrip v) 12, full_value := pyStrip v } = false := by
      simp [persistable, hv]
    rw [buildPngInfo_append, buildPngInfo_cons_of_neg _ _ hnp, buildPngInfo_append]

theorem edit_empty_value_ok_witness :
    (edit_metadata_item ST0 4 "Author" " ").2 = none ∧
    ((edit_metadata_item ST0 4 "Author" " ").1).metadata_entries[4]?
      = some { key := "Author", value := "", editable := true, full_value := "" } := by
  have h := edit_empty_value_ok ST0 4
    { key := "Author", value := "x", editable := true, full_value := "x" }
    "Author" " " (by decide) (by decide) (by decide)
  refine ⟨h.1, ?_⟩
  rw [h.2.1]
  decide

/-- Left-biased choice on optional values, used to state which chunk a
key's final persisted value comes from. -/
def optOr : Option String → Option String → Option String
  | some v, _ => some v
  | none, b => b

/-- The last value written for a key in a chunk list (later chunks take
precedence). -/
def lastLookup : List (String × String) → String → Option String
  | [], _ => none
  | c :: cs, k => optOr (lastLookup cs k) (if c.1 = k then some c.2 else none)

theorem optOr_none (a : Option String) : optOr a none = a := by
  cases a <;> rfl

theorem optOr_assoc (a b c : Option String) :
    optOr (optOr a b) c = optOr a (optOr b c) := by
  cases a <;> rfl

theorem lookup_assocUpsert (m : List (String × String)) (k' v k : String) :
    lookupKey (assocUpsert m k' v) k = if k' = k then some v else lookupKey m k := by
  induction m with
  | nil => simp [assocUpsert, lookupKey]
  | cons c cs ih =>
      by_cases hck : c.1 = k'
      · simp only [assocUpsert, if_pos hck]
        by_cases hk : k' = k
        · simp [lookupKey, hk]
        · simp [lookupKey, hk, hck]
      · simp only [assocUpsert, if_neg hck]
        by_cases hc1 : c.1 = k
        · have hkk : k' ≠ k := fun h => hck (hc1.trans h.symm)
          simp [lookupKey, hc1, hkk]
        · simp [lookupKey, hc1, ih]

theorem foldl_upsert_lookup (chunks m : List (String × String)) (k : String) :
    lookupKey (chunks.foldl (fun acc kv => assocUpsert acc kv.1 kv.2) m) k
      = optOr (lastLookup chunks k) (lookupKey m k) := by
  induction chunks generalizing m with
  | nil => rfl
  | cons c cs ih =>
      simp only [List.foldl_cons, lastLookup]
      rw [ih, lookup_assocUpsert, optOr_assoc]
      congr 1
      by_cases h : c.1 = k
      · simp [h, optOr]
      · simp [h, optOr]

theorem persistedMap_lookup (chunks : List (String × String)) (k : String) :
    lookupKey (persistedMap chunks) k = lastLookup chunks k := by
  unfold persistedMap
  rw [foldl_upsert_lookup]
  show optOr (lastLookup chunks k) none = lastLookup chunks k
  exact optOr_none _

theorem lastLookup_none (chunks : List (String × String)) (k : String)
    (h : ∀ c ∈ chunks, c.1 ≠ k) : lastLookup chunks k = none := by
  induction chunks with
  | nil => rfl
  | cons c cs ih =>
      have hc : c.1 ≠ k := h c (List.mem_cons_self c cs)
      have hcs : ∀ x ∈ cs, x.1 ≠ k := fun x hx => h x (List.mem_cons_of_mem c hx)
      simp [lastLookup, ih hcs, hc, optOr]

/-- C3: whatever the entry list (including one where an editable entry
with a reserved basic-info name was added by the user), the persisted
metadata map after a save contains none of the four reserved keys. -/
theorem save_excludes_reserved (entries : List Entry) (k : String)
    (hk : k ∈ reserved_keys) :
    lookupKey (persistedMap (buildPngInfo entries)) k = none := by
  rw [persistedMap_lookup]
  apply lastLookup_none
  intro c hc
  rw [buildPngInfo] at hc
  rcases List.mem_map.mp hc with ⟨e, he, hce⟩
  have hpe : persistable e = true := (List.mem_filter.mp he).2
  have hprops : e.editable = true ∧ e.key ≠ "" ∧ e.full_value ≠ ""
      ∧ e.key ∉ reserved_keys := by
    simpa [persistable, and_assoc] using hpe
  intro hck
  apply hprops.2.2.2
  have hc1 : c.1 = e.key := by rw [← hce]
  rw [← hc1, hck]
  exact hk

/-- The store after the user adds an editable field named `Image Width`,
colliding with a reserved basic-info name. -/
def stReservedAdd : Store := (add_metadata_field ST0 "Image Width" "999").1

theorem save_excludes_reserved_witness :
    lookupKey (persistedMap (buildPngInfo stReservedAdd.metadata_entries)) "Image Width"
      = none :=
  save_excludes_reserved stReservedAdd.metadata_entries "Image Width" (by decide)

theorem lastLookup_append (a b : List (String × String)) (k : String) :
    lastLookup (a ++ b) k = optOr (lastLookup b k) (lastLookup a k) := by
  induction a with
  | nil => simp [lastLookup, optOr_none]
  | cons c cs ih =>
      simp only [List.cons_append, lastLookup, List.append_eq, ih, optOr_assoc]

/-- Two editable entries that both carry the key `Author`, with differing
`full_value`s, the later one empty. -/
def dupEntries : List Entry :=
  [{ key := "Author", value := "x", editable := true, full_value := "x" },
   { key := "Author", value := "", editable := true, full_value := "" }]

/-- C4 (counterexample): with two editable `Author` entries whose
`full_value`s differ (`"x"` then `""`), the save filter skips the later
entry because its `full_value` is empty, so the persisted value for
`Author` is the EARLIER entry's `"x"`, not the later entry's value. -/
theorem duplicate_key_counterexample :
    (dupEntries[0]?).map Entry.editable = some true ∧
    (dupEntries[1]?).map Entry.editable = some true ∧
    (dupEntries[0]?).map Entry.key = some "Author" ∧
    (dupEntries[1]?).map Entry.key = some "Author" ∧
    (dupEntries[1]?).map Entry.full_value = some "" ∧
    ("" : String) ≠ "x" ∧
    lookupKey (persistedMap (buildPngInfo dupEntries)) "Author" = some "x" := by
  decide

/-- C4 (amended): among the entries that qualify for persistence
(editable, non-empty key, non-empty `full_value`, key not reserved), the
later of two entries sharing a key wins: when no qualifying entry after
`e2` carries its key, the persisted value for that key is `e2`'s
`full_value`, whatever came before. -/
theorem last_write_wins (pre mid post : List Entry) (e1 e2 : Entry)
    (h1 : persistable e1 = true) (h2 : persistable e2 = true)
    (_hk : e1.key = e2.key) (_hv : e1.full_value ≠ e2.full_value)
    (hpost : ∀ e ∈ post, persistable e = true → e.key ≠ e2.key) :
    lookupKey (persistedMap (buildPngInfo (pre ++ e1 :: (mid ++ e2 :: post)))) e2.key
      = some e2.full_value := by
  rw [persistedMap_lookup, buildPngInfo_append, buildPngInfo_cons_of_pos _ _ h1,
    buildPngInfo_append, buildPngInfo_cons_of_pos _ _ h2]
  have hpostnone : lastLookup (buildPngInfo post) e2.key = none := by
    apply lastLookup_none
    intro c hc
    rw [buildPngInfo] at hc
    rcases List.mem_map.mp hc with ⟨e, he, hce⟩
    have hmem : e ∈ post := (List.mem_filter.mp he).1
    have hpe : persistable e = true := (List.mem_filter.mp he).2
    have hc1 : c.1 = e.key := by rw [← hce]
    rw [hc1]
    exact hpost e hmem hpe
  have h3 : lastLookup ((e2.key, e2.full_value) :: buildPngInfo post) e2.key
      = some e2.full_value := by
    simp [lastLookup, hpostnone, optOr]
  have h4 : lastLookup (buildPngInfo mid ++ (e2.key, e2.full_value) :: buildPngInfo post)
      e2.key = some e2.full_value := by
    rw [lastLookup_append, h3]
    rfl
  have h5 : lastLookup ((e1.key, e1.full_value)
      :: (buildPngInfo mid ++ (e2.key, e2.full_value) :: buildPngInfo post)) e2.key
      = some e2.full_value := by
    simp [lastLookup, h4, optOr]
  rw [lastLookup_append, h5]
  rfl

theorem last_write_wins_witness :
    lookupKey (persistedMap (buildPngInfo
      ([] ++ { key := "Author", value := "x", editable := true, full_value := "x" }
        :: ([] ++ { key := "Author", value := "y", editable := true, full_value := "y" }
          :: [])))) "Author"
      = some "y" :=
  last_write_wins [] [] []
    { key := "Author", value := "x", editable := true, full_value := "x" }
    { key := "Author", value := "y", editable := true, full_value := "y" }
    (by decide) (by decide) (by decide) (by decide) (by simp)

/-- A decoded image whose single text-metadata value is a sequence. -/
def imgList : PngImage :=
  { width := 1, height := 1, mode := "RGB", format := some "PNG",
    info := [("Tags", PyValue.vlist ["a", "b"])] }

/-- C2 (counterexample): for a sequence-valued pair, load stores
`full_value = str(value)` (here `[\x27a\x27, \x27b\x27]`) while the
displayed value is the truncated join `a, b`; the displayed value is not
the truncation of `full_value`, and `full_value` is not the joined
rendering. -/
theorem load_full_value_counterexample :
    (load_metadata_entries imgList)[4]?
      = some { key := "Tags", value := "a, b", editable := true,
               full_value := "[\x27a\x27, \x27b\x27]" } ∧
    ("[\x27a\x27, \x27b\x27]" : String) ≠ "a, b" ∧
    limit_text_lines "[\x27a\x27, \x27b\x27]" 12 ≠ "a, b" := by
  decide

/-- C2 (amended): every entry created by load from a text-metadata pair
stores `full_value = str(value)` (the default string form of the raw
decoded value), and its displayed value is the truncation of the rendering
(elements joined by `", "` for a sequence, the indented dump for a
mapping, `str(value)` otherwise); for a plain string value the rendering
coincides with `full_value`, so there the displayed value is the
truncation of `full_value`. -/
theorem load_entry_shape (img : PngImage) (j : Nat) (kv : String × PyValue)
    (h : img.info[j]? = some kv) :
    (load_metadata_entries img)[4 + j]? = some (mkInfoEntry kv) ∧
    mkInfoEntry kv = { key := kv.1, value := limit_text_lines (renderValue kv.2) 12,
                       editable := true, full_value := pyStr kv.2 } ∧
    (∀ s, kv.2 = PyValue.vstr s →
      limit_text_lines (renderValue kv.2) 12 = limit_text_lines (pyStr kv.2) 12) := by
  refine ⟨?_, rfl, ?_⟩
  · have hcond : (img.info.isEmpty && (basicInfo img).isEmpty) = false := by
      simp [basicInfo]
    unfold load_metadata_entries
    rw [hcond]
    simp only [Bool.false_eq_true, if_false]
    have hlen : ((basicInfo img).map mkBasicEntry).length = 4 := by
      simp [basicInfo]
    rw [List.getElem?_append_right (by rw [hlen]; omega), hlen,
      Nat.add_sub_cancel_left, List.getElem?_map, h]
    rfl
  · intro s hs
    rw [hs]
    rfl

theorem load_entry_shape_witness :
    (load_metadata_entries imgList)[4 + 0]?
      = some (mkInfoEntry ("Tags", PyValue.vlist ["a", "b"])) :=
  (load_entry_shape imgList 0 ("Tags", PyValue.vlist ["a", "b"]) (by decide)).1

/-- A decoded image that carries no text metadata at all. -/
def imgNoMeta : PngImage :=
  { width := 5, height := 7, mode := "L", format := some "PNG", info := [] }

/-- C8 (counterexample): for an image that decodes fine but has no text
metadata, the loaded entry list is just the four basic-info rows; no entry
with key `No PNG metadata` is emitted. -/
theorem no_metadata_placeholder_counterexample :
    imgNoMeta.info = [] ∧
    (load_metadata_entries imgNoMeta).length = 4 ∧
    (load_metadata_entries imgNoMeta).all (fun e => e.key != "No PNG metadata") = true := by
  decide

/-- C8 (amended): the placeholder row is appended only when both the text
metadata and the basic-info list are empty (`if not png_info and not
basic_info`); `basic_info` always has four entries, so a successfully
decoded image never produces the placeholder: every non-editable row of
the loaded list has a basic-info key, never `No PNG metadata`. -/
theorem no_placeholder_amended (img : PngImage) :
    (load_metadata_entries img).all
      (fun e => e.editable || e.key != "No PNG metadata") = true := by
  have hcond : (img.info.isEmpty && (basicInfo img).isEmpty) = false := by
    simp [basicInfo]
  unfold load_metadata_entries
  rw [hcond]
  simp only [Bool.false_eq_true, if_false, List.all_append, Bool.and_eq_true]
  constructor
  · simp [basicInfo, mkBasicEntry]
  · simp only [List.all_eq_true, List.mem_map]
    intro e he
    rcases he with ⟨kv, hmem, heq⟩
    rw [← heq]
    simp [mkInfoEntry]
